import Mathlib

/-!
# Verification of the hyacinth notification engine (`src/hyacinth/notifier.py`)

Shallow embedding of the poll-filter-deliver cycle of `ListingNotifier`.

Modelling conventions:
* Timestamps (`datetime`) are `Nat`.
* A `Listing`'s dynamically inspected attributes (`hasattr`/`getattr` on the
  field a `Filter` is keyed by) are an association list `fields`;
  `created_at`, `updated_at`, `location` and `distance_miles` are the
  attributes the engine itself reads.  Field values are modelled as `Int`.
* A `SearchSpec` is opaque (spec §3: identity is all that is used).
* Python code may raise: a filter predicate is `Int → Except String Bool`,
  and one `await self.notify(listing)` call is modelled by consulting a
  `sink : Nat → NotifyOutcome` at the index of the call (`ok`, raising
  `asyncio.CancelledError`, or raising another exception).
* `monitor.get_listings` (external fetch) is a parameter
  `getL : SearchSpec → Nat → List Listing`; the geo-distance helper is a
  parameter `dist : Int × Int → Int`.
-/

namespace Hyacinth

/-- Opaque search specification (`hyacinth.models.SearchSpec`); only its
identity is used by the engine (register/remove keys). -/
structure SearchSpec where
  id : Nat
deriving DecidableEq, Repr

/-- `ActiveSearch` from `notifier.py`: a spec plus the `last_notified`
watermark timestamp. -/
structure ActiveSearch where
  spec : SearchSpec
  last_notified : Nat
deriving DecidableEq, Repr

/-- `hyacinth.models.Listing`, restricted to the attributes the engine
reads.  `fields` models the listing variant's optional attributes that
filters may be keyed by (`hasattr`/`getattr`). -/
structure Listing where
  created_at : Nat
  updated_at : Nat
  location : Int × Int
  distance_miles : Option Int
  fields : List (String × Int)
deriving DecidableEq, Repr

/-- `hyacinth.filters.Filter`: one predicate on one field value.  The
predicate may raise (`Except.error`). -/
structure Filter where
  test : Int → Except String Bool

/-- Outcome of one `await self.notify(listing)` call: it returns normally,
raises `asyncio.CancelledError`, or raises another exception. -/
inductive NotifyOutcome where
  | ok
  | cancelled
  | failed (e : String)
deriving DecidableEq, Repr

/-- `ListingNotifier.should_notify_listing`: iterate the registered filters
in order; a filter whose field is absent from the listing is skipped; the
first present-field filter that rejects makes the result `false`; an
exception from a predicate propagates. -/
def should_notify_listing (filters : List (String × Filter)) (l : Listing) :
    Except String Bool :=
  match filters with
  | [] => .ok true
  | (filter_field, f) :: rest =>
    match l.fields.lookup filter_field with
    | none => should_notify_listing rest l
    | some v =>
      match f.test v with
      | .error e => .error e
      | .ok false => .ok false
      | .ok true => should_notify_listing rest l

/-- `list(filter(self.should_notify_listing, listings))`: keep the listings
the filters accept, in order; the first exception raised by a predicate
propagates. -/
def filterListings (filters : List (String × Filter)) :
    List Listing → Except String (List Listing)
  | [] => .ok []
  | l :: rest =>
    match should_notify_listing filters l with
    | .error e => .error e
    | .ok true => (filterListings filters rest).map (l :: ·)
    | .ok false => filterListings filters rest

/-- `ListingNotifier._add_calculated_fields_to_listing`: compute
`distance_miles` from the home location only when the source did not
already supply it. -/
def add_calculated_fields_to_listing (dist : Int × Int → Int) (l : Listing) :
    Listing :=
  if l.distance_miles = none then { l with distance_miles := some (dist l.location) }
  else l

/-- Delivery order used by `listings.sort(key=lambda l: l.updated_at)`.
Python's sort is stable, and all stable sorts by a total preorder agree,
so `List.insertionSort` by this relation is extensionally the same list. -/
def listingLE (a b : Listing) : Prop := a.updated_at ≤ b.updated_at

instance : DecidableRel listingLE := fun a b => Nat.decLe a.updated_at b.updated_at

instance : IsTotal Listing listingLE := ⟨fun a b => Nat.le_total a.updated_at b.updated_at⟩

instance : IsTrans Listing listingLE := ⟨fun _ _ _ h h' => Nat.le_trans h h'⟩

/-- `ListingNotifier._get_new_listings_for_search`: fetch listings after the
search's watermark, enrich them, and if any were returned set
`last_notified` to the `created_at` of the first element of the batch.
Returns the updated search (the Python code mutates it in place) and the
enriched batch. -/
def get_new_listings_for_search (getL : SearchSpec → Nat → List Listing)
    (dist : Int × Int → Int) (search : ActiveSearch) :
    ActiveSearch × List Listing :=
  let new_listings :=
    (getL search.spec search.last_notified).map (add_calculated_fields_to_listing dist)
  match new_listings with
  | [] => (search, [])
  | l :: rest => ({ search with last_notified := l.created_at }, l :: rest)

/-- `ListingNotifier._get_new_listings`: fetch for every active search in
order, concatenate, call `save_notifier` iff the combined list is nonempty
(returned as the `Bool`), and sort ascending by `updated_at`. -/
def get_new_listings (getL : SearchSpec → Nat → List Listing)
    (dist : Int × Int → Int) (searches : List ActiveSearch) :
    List ActiveSearch × List Listing × Bool :=
  let results := searches.map (get_new_listings_for_search getL dist)
  let listings := (results.map Prod.snd).flatten
  (results.map Prod.fst, listings.insertionSort listingLE, !listings.isEmpty)

/-- Result of the `for listing in listings` delivery loop of
`_notify_new_listings`: the trace of listings handed to the sink, the
residue of `not_yet_notified_listings`, the number of sink calls made, and
how the loop ended (`ok` = ran to completion). -/
structure LoopResult where
  delivered : List Listing
  pending : List Listing
  calls : Nat
  outcome : NotifyOutcome
deriving DecidableEq, Repr

/-- The delivery loop: `for listing in listings: await self.notify(listing);
not_yet_notified_listings.remove(listing)`.  `pending` enters as
`listings.copy()`; a raise from `notify` stops the loop before the current
listing is removed. -/
def notifyLoop (sink : Nat → NotifyOutcome) :
    List Listing → List Listing → Nat → LoopResult
  | [], pending, k => ⟨[], pending, k, .ok⟩
  | l :: rest, pending, k =>
    match sink k with
    | .ok =>
      let r := notifyLoop sink rest (pending.erase l) (k + 1)
      ⟨l :: r.delivered, r.pending, r.calls, r.outcome⟩
    | .cancelled => ⟨[], pending, k + 1, .cancelled⟩
    | .failed e => ⟨[], pending, k + 1, .failed e⟩

/-- The `except asyncio.CancelledError` flush:
`for listing in not_yet_notified_listings: await self.notify(listing)`
followed by `raise` (so a completed flush re-raises the cancellation; an
exception raised by the flush itself propagates instead). -/
def flushLoop (sink : Nat → NotifyOutcome) :
    List Listing → Nat → List Listing × Nat × NotifyOutcome
  | [], k => ([], k, .cancelled)
  | l :: rest, k =>
    match sink k with
    | .ok =>
      let r := flushLoop sink rest (k + 1)
      (l :: r.1, r.2.1, r.2.2)
    | .cancelled => ([], k + 1, .cancelled)
    | .failed e => ([], k + 1, .failed e)

/-- Observable result of one poll cycle (`_notify_new_listings`): the trace
of listings delivered to the sink, how the coroutine ended, the active
searches after the fetch phase, and whether `save_notifier` was called. -/
structure CycleResult where
  delivered : List Listing
  outcome : NotifyOutcome
  searches : List ActiveSearch
  saved : Bool
deriving Repr

/-- `ListingNotifier._notify_new_listings`: fetch (advancing watermarks and
saving), return early if nothing was found, filter (a filter exception
propagates uncaught: only `CancelledError` is handled), then deliver; on
cancellation mid-loop, flush the remaining pending listings and re-raise. -/
def notify_new_listings (getL : SearchSpec → Nat → List Listing)
    (dist : Int × Int → Int) (sink : Nat → NotifyOutcome)
    (filters : List (String × Filter)) (searches : List ActiveSearch) :
    CycleResult :=
  let fetched := get_new_listings getL dist searches
  let searches2 := fetched.1
  let listings := fetched.2.1
  let saved := fetched.2.2
  if listings.isEmpty then ⟨[], .ok, searches2, saved⟩
  else
    match filterListings filters listings with
    | .error e => ⟨[], .failed e, searches2, saved⟩
    | .ok L =>
      let r := notifyLoop sink L L 0
      match r.outcome with
      | .ok => ⟨r.delivered, .ok, searches2, saved⟩
      | .failed e => ⟨r.delivered, .failed e, searches2, saved⟩
      | .cancelled =>
        let f := flushLoop sink r.pending r.calls
        ⟨r.delivered ++ f.1, f.2.2, searches2, saved⟩

/-- A sequence of poll cycles in one process lifetime.  `sink i` is the
sink's behaviour during cycle `i`; returns the final active searches and
the per-cycle results, oldest first. -/
def runCycles (getL : SearchSpec → Nat → List Listing)
    (dist : Int × Int → Int) (sink : Nat → Nat → NotifyOutcome)
    (filters : List (String × Filter)) (i : Nat)
    (searches : List ActiveSearch) : Nat → List ActiveSearch × List CycleResult
  | 0 => (searches, [])
  | n + 1 =>
    let r := notify_new_listings getL dist (sink i) filters searches
    let rest := runCycles getL dist sink filters (i + 1) r.searches n
    (rest.1, r :: rest.2)

/-! ## Engine state and the operations outside the poll cycle

`MarketplaceMonitor.register_search` / `remove_search` live in
`hyacinth/monitor.py`, which is not part of the sources here; the scheduler
handle comes from `hyacinth/scheduler.py` (also absent), which wraps an
APScheduler scheduler (the engine passes it `apscheduler.triggers.interval.
IntervalTrigger` and calls `add_job` / `pause_job` / `resume_job` /
`remove_job`, the APScheduler `BaseScheduler` API). -/

/-- Modelled from the spec: `MarketplaceMonitor.register_search` (module
`hyacinth/monitor.py`, absent from the sources) — "idempotent registration
bookkeeping" keyed by spec identity. -/
def register_search (regs : List SearchSpec) (spec : SearchSpec) : List SearchSpec :=
  if spec ∈ regs then regs else regs ++ [spec]

/-- Modelled from the spec: `MarketplaceMonitor.remove_search` (module
`hyacinth/monitor.py`, absent from the sources) — idempotent removal of a
registration keyed by spec identity. -/
def remove_search (regs : List SearchSpec) (spec : SearchSpec) : List SearchSpec :=
  regs.filter (· ≠ spec)

/-- Modelled from the spec: the external scheduler's remove-job operation
(`hyacinth/scheduler.py` is absent from the sources; the handle it returns
is an APScheduler scheduler, whose `BaseScheduler.remove_job` is documented
to raise `JobLookupError` when no job with the given id exists). -/
def remove_job (jobs : List Nat) (jobId : Nat) : Except String (List Nat) :=
  if jobId ∈ jobs then .ok (jobs.filter (· ≠ jobId)) else .error "JobLookupError"

/-- The mutable state a `ListingNotifier` instance owns or reaches:
its `Config` (`paused`, `active_searches`, `filters`), the scheduler's job
store together with this notifier's job id, the monitor's registered specs,
and a counter of `save_notifier` calls (persistence writes). -/
structure EngineState where
  paused : Bool
  active_searches : List ActiveSearch
  filters : List (String × Filter)
  jobs : List Nat
  notify_job_id : Nat
  registered : List SearchSpec
  save_count : Nat

/-- `ListingNotifier.create_search`: append a new `ActiveSearch` whose
watermark defaults to `now - backdate` (the configured
`notifier_backdate_time_hours` window) and register the spec with the
monitor.  Nothing else is touched. -/
def create_search (st : EngineState) (search_spec : SearchSpec)
    (last_notified : Option Nat) (now backdate : Nat) : EngineState :=
  let ln := match last_notified with
    | none => now - backdate
    | some t => t
  { st with
    active_searches := st.active_searches ++ [⟨search_spec, ln⟩]
    registered := register_search st.registered search_spec }

/-- `ListingNotifier.cleanup`: remove the scheduled job (which raises if the
job id is unknown to the scheduler), then deregister every active search's
spec from the monitor.  The active-search list itself is not cleared. -/
def cleanup (st : EngineState) : Except String EngineState := do
  let jobs2 ← remove_job st.jobs st.notify_job_id
  let regs := st.active_searches.foldl (fun r s => remove_search r s.spec) st.registered
  .ok { st with jobs := jobs2, registered := regs }

/-! ## Concrete instances used to exercise the definitions -/

/-- Trivial geo-distance function. -/
def d0 : Int × Int → Int := fun _ => 0

/-- A concrete search spec. -/
def spec0 : SearchSpec := ⟨0⟩

/-- An old listing: created and updated at time 5. -/
def lA : Listing := ⟨5, 5, (0, 0), some 0, []⟩

/-- A newer listing: created and updated at time 20. -/
def lB : Listing := ⟨20, 20, (0, 0), some 0, []⟩

/-- A listing carrying a `price` attribute. -/
def lP : Listing := ⟨5, 5, (0, 0), some 0, [("price", 300)]⟩

/-- A well-behaved price filter: accept iff the value is at most 500. -/
def priceFilter : Filter := ⟨fun v => .ok (decide (v ≤ 500))⟩

/-- A misconfigured filter whose predicate raises on every value. -/
def failFilter : Filter := ⟨fun _ => .error "boom"⟩

/-- A listing source holding `[lA, lB]` that honours the watermark contract
(`created_at > after_time`) but returns its batch oldest-first. -/
def oldestFirstSource : SearchSpec → Nat → List Listing :=
  fun _ w => [lA, lB].filter fun l => decide (w < l.created_at)

/-- The same pool returned newest-first. -/
def newestFirstSource : SearchSpec → Nat → List Listing :=
  fun _ w => [lB, lA].filter fun l => decide (w < l.created_at)

/-- A source holding only the priced listing `lP`. -/
def priceSource : SearchSpec → Nat → List Listing :=
  fun _ w => [lP].filter fun l => decide (w < l.created_at)

/-- A sink that always succeeds. -/
def okSink : Nat → NotifyOutcome := fun _ => .ok

/-- A sink whose second call (index 1) observes `CancelledError` and whose
other calls succeed. -/
def cancelSink : Nat → NotifyOutcome := fun i => if i = 1 then .cancelled else .ok

/-- A sink whose first call raises a (non-cancellation) delivery error. -/
def failSink : Nat → NotifyOutcome := fun i => if i = 0 then .failed "sinkfail" else .ok

/-- A per-cycle sink that always succeeds. -/
def okRunSink : Nat → Nat → NotifyOutcome := fun _ _ => .ok

/-- A per-cycle sink that raises a delivery error throughout cycle 0 and
succeeds afterwards. -/
def failFirstCycleSink : Nat → Nat → NotifyOutcome :=
  fun i _ => if i = 0 then .failed "sinkfail" else .ok

/-- A concrete engine state: one active search, one scheduled job (id 7),
its spec registered with the monitor. -/
def engine0 : EngineState := ⟨false, [⟨spec0, 5⟩], [], [7], 7, [spec0], 0⟩

/-! ## Basic lemmas about the embedded operations -/

theorem created_at_add_calculated (dist : Int × Int → Int) (l : Listing) :
    (add_calculated_fields_to_listing dist l).created_at = l.created_at := by
  unfold add_calculated_fields_to_listing; split <;> rfl

theorem updated_at_add_calculated (dist : Int × Int → Int) (l : Listing) :
    (add_calculated_fields_to_listing dist l).updated_at = l.updated_at := by
  unfold add_calculated_fields_to_listing; split <;> rfl

/-- The enriched batch returned by `_get_new_listings_for_search` is exactly
the fetched batch with calculated fields added. -/
theorem snd_get_new_listings_for_search (getL : SearchSpec → Nat → List Listing)
    (dist : Int × Int → Int) (search : ActiveSearch) :
    (get_new_listings_for_search getL dist search).2 =
      (getL search.spec search.last_notified).map (add_calculated_fields_to_listing dist) := by
  unfold get_new_listings_for_search
  cases (getL search.spec search.last_notified).map (add_calculated_fields_to_listing dist) <;> rfl

theorem get_new_listings_for_search_of_eq_nil (getL : SearchSpec → Nat → List Listing)
    (dist : Int × Int → Int) (search : ActiveSearch)
    (h : getL search.spec search.last_notified = []) :
    get_new_listings_for_search getL dist search = (search, []) := by
  unfold get_new_listings_for_search
  simp [h]

theorem get_new_listings_for_search_of_eq_cons (getL : SearchSpec → Nat → List Listing)
    (dist : Int × Int → Int) (search : ActiveSearch) (l : Listing) (rest : List Listing)
    (h : getL search.spec search.last_notified = l :: rest) :
    (get_new_listings_for_search getL dist search).1 = ⟨search.spec, l.created_at⟩ := by
  unfold get_new_listings_for_search
  simp [h, created_at_add_calculated]

theorem spec_get_new_listings_for_search (getL : SearchSpec → Nat → List Listing)
    (dist : Int × Int → Int) (search : ActiveSearch) :
    (get_new_listings_for_search getL dist search).1.spec = search.spec := by
  unfold get_new_listings_for_search
  cases h : (getL search.spec search.last_notified).map (add_calculated_fields_to_listing dist) <;>
    rfl

/-- In every branch of the cycle, the active searches it reports are the
ones produced by the fetch phase. -/
theorem searches_notify_new_listings (getL : SearchSpec → Nat → List Listing)
    (dist : Int × Int → Int) (sink : Nat → NotifyOutcome)
    (filters : List (String × Filter)) (searches : List ActiveSearch) :
    (notify_new_listings getL dist sink filters searches).searches =
      (get_new_listings getL dist searches).1 := by
  simp only [notify_new_listings]
  split
  · rfl
  · split
    · rfl
    · split <;> rfl

/-- In every branch of the cycle, the saved flag it reports is the one
produced by the fetch phase. -/
theorem saved_notify_new_listings (getL : SearchSpec → Nat → List Listing)
    (dist : Int × Int → Int) (sink : Nat → NotifyOutcome)
    (filters : List (String × Filter)) (searches : List ActiveSearch) :
    (notify_new_listings getL dist sink filters searches).saved =
      (get_new_listings getL dist searches).2.2 := by
  simp only [notify_new_listings]
  split
  · rfl
  · split
    · rfl
    · split <;> rfl

/-- A successful run of `list(filter(...))` keeps a sublist of its input. -/
theorem filterListings_sublist (filters : List (String × Filter)) :
    ∀ (L L' : List Listing), filterListings filters L = .ok L' → List.Sublist L' L := by
  intro L
  induction L with
  | nil =>
    intro L' h
    cases h
    exact List.Sublist.refl []
  | cons l rest ih =>
    intro L' h
    unfold filterListings at h
    cases hs : should_notify_listing filters l with
    | error e => rw [hs] at h; cases h
    | ok b =>
      cases b with
      | true =>
        rw [hs] at h
        cases hrest : filterListings filters rest with
        | error e => rw [hrest] at h; cases h
        | ok L'' =>
          rw [hrest] at h
          cases h
          exact (ih L'' hrest).cons₂ l
      | false =>
        rw [hs] at h
        exact (ih L' h).cons l

/-- The delivery loop, started with the pending set equal to the listings
to deliver (as `_notify_new_listings` does via `listings.copy()`), always
produces a delivered trace `take m` and a pending residue `drop m`. -/
theorem notifyLoop_take_drop (sink : Nat → NotifyOutcome) :
    ∀ (L : List Listing) (k : Nat),
      ∃ m, (notifyLoop sink L L k).delivered = L.take m ∧
        (notifyLoop sink L L k).pending = L.drop m := by
  intro L
  induction L with
  | nil => intro k; exact ⟨0, rfl, rfl⟩
  | cons l rest ih =>
    intro k
    unfold notifyLoop
    cases hs : sink k with
    | ok =>
      rw [List.erase_cons_head]
      obtain ⟨m, hd, hp⟩ := ih (k + 1)
      exact ⟨m + 1, by simp [List.take_succ_cons, hd], by simp [List.drop_succ_cons, hp]⟩
    | cancelled => exact ⟨0, rfl, rfl⟩
    | failed e => exact ⟨0, rfl, rfl⟩

/-- The cancellation flush delivers some initial segment of the pending
list (all of it when the sink keeps succeeding). -/
theorem flushLoop_take (sink : Nat → NotifyOutcome) :
    ∀ (P : List Listing) (k : Nat), ∃ m, (flushLoop sink P k).1 = P.take m := by
  intro P
  induction P with
  | nil => intro k; exact ⟨0, rfl⟩
  | cons l rest ih =>
    intro k
    unfold flushLoop
    cases hs : sink k with
    | ok =>
      obtain ⟨m, hd⟩ := ih (k + 1)
      exact ⟨m + 1, by simp [List.take_succ_cons, hd]⟩
    | cancelled => exact ⟨0, rfl⟩
    | failed e => exact ⟨0, rfl⟩

/-- Whatever the sink does, the trace of listings delivered during one poll
cycle is an initial segment of the filtered list, hence a sublist of the
sorted fetched list. -/
theorem delivered_sublist (getL : SearchSpec → Nat → List Listing)
    (dist : Int × Int → Int) (sink : Nat → NotifyOutcome)
    (filters : List (String × Filter)) (searches : List ActiveSearch) :
    List.Sublist (notify_new_listings getL dist sink filters searches).delivered
      (get_new_listings getL dist searches).2.1 := by
  simp only [notify_new_listings]
  split
  · exact List.nil_sublist _
  · split
    · exact List.nil_sublist _
    · rename_i L hf
      have hLsub : List.Sublist L (get_new_listings getL dist searches).2.1 :=
        filterListings_sublist filters _ L hf
      obtain ⟨m, hd, hp⟩ := notifyLoop_take_drop sink L 0
      have h1 : List.Sublist (notifyLoop sink L L 0).delivered L := by
        rw [hd]; exact List.take_sublist m L
      split
      · exact h1.trans hLsub
      · exact h1.trans hLsub
      · obtain ⟨m', hf'⟩ :=
          flushLoop_take sink (notifyLoop sink L L 0).pending (notifyLoop sink L L 0).calls
        have h2 : List.Sublist ((notifyLoop sink L L 0).delivered ++
            (flushLoop sink (notifyLoop sink L L 0).pending (notifyLoop sink L L 0).calls).1) L := by
          rw [hd, hf', hp, ← List.take_add]
          exact List.take_sublist (m + m') L
        exact h2.trans hLsub

/-- The combined fetched list handed to the delivery phase is sorted by
`updated_at`. -/
theorem sorted_get_new_listings (getL : SearchSpec → Nat → List Listing)
    (dist : Int × Int → Int) (searches : List ActiveSearch) :
    List.Pairwise listingLE (get_new_listings getL dist searches).2.1 :=
  List.sorted_insertionSort listingLE _

/-- One-step unfolding of `should_notify_listing` on a nonempty filter
list. -/
theorem should_notify_listing_cons (fld : String) (f : Filter)
    (rest : List (String × Filter)) (l : Listing) :
    should_notify_listing ((fld, f) :: rest) l =
      match l.fields.lookup fld with
      | none => should_notify_listing rest l
      | some v =>
        match f.test v with
        | .error e => .error e
        | .ok false => .ok false
        | .ok true => should_notify_listing rest l := rfl

/-- When no consulted predicate raises, `should_notify_listing` answers
`false` exactly when some filter whose field is present rejects its
value. -/
theorem should_notify_listing_false_iff :
    ∀ (filters : List (String × Filter)) (l : Listing),
      (∀ p ∈ filters, ∀ v, l.fields.lookup p.1 = some v → ∃ b, p.2.test v = .ok b) →
      (should_notify_listing filters l = .ok false ↔
        ∃ p ∈ filters, ∃ v, l.fields.lookup p.1 = some v ∧ p.2.test v = .ok false) := by
  intro filters
  induction filters with
  | nil =>
    intro l _
    simp [should_notify_listing]
  | cons p rest ih =>
    intro l h
    obtain ⟨fld, f⟩ := p
    have hrest := fun q hq => h q (List.mem_cons_of_mem _ hq)
    rw [should_notify_listing_cons]
    cases hl : l.fields.lookup fld with
    | none =>
      rw [ih l hrest]
      constructor
      · rintro ⟨q, hq, v, hv, ht⟩
        exact ⟨q, List.mem_cons_of_mem _ hq, v, hv, ht⟩
      · rintro ⟨q, hq, v, hv, ht⟩
        rcases List.mem_cons.mp hq with hq | hq
        · subst hq
          rw [hl] at hv
          cases hv
        · exact ⟨q, hq, v, hv, ht⟩
    | some v =>
      obtain ⟨b, hb⟩ := h (fld, f) (List.mem_cons_self _ _) v hl
      dsimp only at hb ⊢
      rw [hb]
      cases b with
      | false =>
        exact iff_of_true rfl ⟨(fld, f), List.mem_cons_self _ _, v, hl, hb⟩
      | true =>
        show should_notify_listing rest l = Except.ok false ↔ _
        rw [ih l hrest]
        constructor
        · rintro ⟨q, hq, v', hv', ht⟩
          exact ⟨q, List.mem_cons_of_mem _ hq, v', hv', ht⟩
        · rintro ⟨q, hq, v', hv', ht⟩
          rcases List.mem_cons.mp hq with hq | hq
          · subst hq
            rw [hl] at hv'
            cases hv'
            rw [hb] at ht
            cases ht
          · exact ⟨q, hq, v', hv', ht⟩

/-- Filters whose fields are all absent from the listing's variant let the
listing through. -/
theorem should_notify_listing_absent :
    ∀ (filters : List (String × Filter)) (l : Listing),
      (∀ p ∈ filters, l.fields.lookup p.1 = none) →
      should_notify_listing filters l = .ok true := by
  intro filters
  induction filters with
  | nil => intro l _; rfl
  | cons p rest ih =>
    intro l h3
    obtain ⟨fld, f⟩ := p
    rw [should_notify_listing_cons, h3 (fld, f) (List.mem_cons_self _ _)]
    exact ih l fun q hq => h3 q (List.mem_cons_of_mem _ hq)

/-- A delivery loop whose sink calls all succeed delivers everything and
empties the pending set. -/
theorem notifyLoop_all_ok (sink : Nat → NotifyOutcome) :
    ∀ (L : List Listing) (k : Nat), (∀ j, j < L.length → sink (k + j) = .ok) →
      notifyLoop sink L L k = ⟨L, [], k + L.length, .ok⟩ := by
  intro L
  induction L with
  | nil => intro k _; rfl
  | cons l rest ih =>
    intro k h
    have h0 : sink k = .ok := by simpa using h 0 (Nat.succ_pos _)
    unfold notifyLoop
    rw [h0, List.erase_cons_head,
      ih (k + 1) fun j hj => by
        have e1 : k + 1 + j = k + (j + 1) := by omega
        rw [e1]
        exact h (j + 1) (Nat.succ_lt_succ hj)]
    simp [Nat.add_assoc, Nat.add_comm 1 rest.length]

/-- A delivery loop whose sink raises `CancelledError` on its `m`-th call
(after `m` successful deliveries) stops with the first `m` listings
delivered and the rest pending. -/
theorem notifyLoop_cancel_at (sink : Nat → NotifyOutcome) :
    ∀ (m : Nat) (L : List Listing) (k : Nat), m < L.length →
      (∀ j, j < m → sink (k + j) = .ok) → sink (k + m) = .cancelled →
      notifyLoop sink L L k = ⟨L.take m, L.drop m, k + m + 1, .cancelled⟩ := by
  intro m
  induction m with
  | zero =>
    intro L k hm _ hc
    cases L with
    | nil => cases hm
    | cons l rest =>
      unfold notifyLoop
      rw [show sink k = .cancelled by simpa using hc]
      rfl
  | succ m ih =>
    intro L k hm hok hc
    cases L with
    | nil => cases hm
    | cons l rest =>
      have h0 : sink k = .ok := by simpa using hok 0 (Nat.succ_pos _)
      unfold notifyLoop
      rw [h0, List.erase_cons_head,
        ih rest (k + 1) (Nat.lt_of_succ_lt_succ hm)
          (fun j hj => by
            have e1 : k + 1 + j = k + (j + 1) := by omega
            rw [e1]
            exact hok (j + 1) (Nat.succ_lt_succ hj))
          (by
            have e1 : k + 1 + m = k + (m + 1) := by omega
            rw [e1]
            exact hc)]
      simp [List.take_succ_cons, List.drop_succ_cons, Nat.add_assoc, Nat.add_comm 1 m]

/-- A delivery loop whose sink raises an ordinary exception on its `m`-th
call stops the same way with a `failed` outcome. -/
theorem notifyLoop_fail_at (sink : Nat → NotifyOutcome) (e : String) :
    ∀ (m : Nat) (L : List Listing) (k : Nat), m < L.length →
      (∀ j, j < m → sink (k + j) = .ok) → sink (k + m) = .failed e →
      notifyLoop sink L L k = ⟨L.take m, L.drop m, k + m + 1, .failed e⟩ := by
  intro m
  induction m with
  | zero =>
    intro L k hm _ hc
    cases L with
    | nil => cases hm
    | cons l rest =>
      unfold notifyLoop
      rw [show sink k = .failed e by simpa using hc]
      rfl
  | succ m ih =>
    intro L k hm hok hc
    cases L with
    | nil => cases hm
    | cons l rest =>
      have h0 : sink k = .ok := by simpa using hok 0 (Nat.succ_pos _)
      unfold notifyLoop
      rw [h0, List.erase_cons_head,
        ih rest (k + 1) (Nat.lt_of_succ_lt_succ hm)
          (fun j hj => by
            have e1 : k + 1 + j = k + (j + 1) := by omega
            rw [e1]
            exact hok (j + 1) (Nat.succ_lt_succ hj))
          (by
            have e1 : k + 1 + m = k + (m + 1) := by omega
            rw [e1]
            exact hc)]
      simp [List.take_succ_cons, List.drop_succ_cons, Nat.add_assoc, Nat.add_comm 1 m]

/-- A cancellation flush whose sink calls all succeed delivers the whole
pending list and then re-raises the cancellation. -/
theorem flushLoop_all_ok (sink : Nat → NotifyOutcome) :
    ∀ (P : List Listing) (k : Nat), (∀ j, j < P.length → sink (k + j) = .ok) →
      flushLoop sink P k = (P, k + P.length, .cancelled) := by
  intro P
  induction P with
  | nil => intro k _; rfl
  | cons l rest ih =>
    intro k h
    have h0 : sink k = .ok := by simpa using h 0 (Nat.succ_pos _)
    unfold flushLoop
    rw [h0,
      ih (k + 1) fun j hj => by
        have e1 : k + 1 + j = k + (j + 1) := by omega
        rw [e1]
        exact h (j + 1) (Nat.succ_lt_succ hj)]
    simp [Nat.add_assoc, Nat.add_comm 1 rest.length]

/-- Removals never (re-)introduce a registration. -/
theorem not_mem_foldl_remove_of_not_mem :
    ∀ (searches : List ActiveSearch) (regs : List SearchSpec) (x : SearchSpec),
      x ∉ regs → x ∉ searches.foldl (fun r t => remove_search r t.spec) regs := by
  intro searches
  induction searches with
  | nil => intro regs x hx; exact hx
  | cons t rest ih =>
    intro regs x hx
    refine ih (remove_search regs t.spec) x fun hmem => ?_
    exact hx (List.mem_filter.mp hmem).1

/-- An element is never registered after its own removal step. -/
theorem not_mem_remove_search_self (regs : List SearchSpec) (x : SearchSpec) :
    x ∉ remove_search regs x := by
  intro hmem
  have := (List.mem_filter.mp hmem).2
  simp at this

/-- After folding removals over all active searches, none of their specs
remains registered. -/
theorem not_mem_foldl_remove :
    ∀ (searches : List ActiveSearch) (regs : List SearchSpec) (s : ActiveSearch),
      s ∈ searches → s.spec ∉ searches.foldl (fun r t => remove_search r t.spec) regs := by
  intro searches
  induction searches with
  | nil => intro regs s hs; cases hs
  | cons t rest ih =>
    intro regs s hs
    rcases List.mem_cons.mp hs with h | h
    · subst h
      exact not_mem_foldl_remove_of_not_mem rest (remove_search regs s.spec) s.spec
        (not_mem_remove_search_self regs s.spec)
    · exact ih (remove_search regs t.spec) s h

/-- Under the source contract (only listings strictly newer than the
watermark are returned), one fetch never lowers a search's watermark. -/
theorem watermark_le_get_for_search (getL : SearchSpec → Nat → List Listing)
    (dist : Int × Int → Int)
    (Hgt : ∀ s w, ∀ l ∈ getL s w, w < l.created_at) (search : ActiveSearch) :
    search.last_notified ≤ (get_new_listings_for_search getL dist search).1.last_notified := by
  cases h : getL search.spec search.last_notified with
  | nil => rw [get_new_listings_for_search_of_eq_nil getL dist search h]
  | cons l rest =>
    rw [get_new_listings_for_search_of_eq_cons getL dist search l rest h]
    exact Nat.le_of_lt (Hgt search.spec search.last_notified l (h ▸ List.mem_cons_self l rest))

/-- Positionally, the fetch phase maps each search to its updated self. -/
theorem getElem?_fst_get_new_listings (getL : SearchSpec → Nat → List Listing)
    (dist : Int × Int → Int) (searches : List ActiveSearch) (p : Nat) :
    ((get_new_listings getL dist searches).1)[p]? =
      (searches[p]?).map fun s => (get_new_listings_for_search getL dist s).1 := by
  simp only [get_new_listings]
  simp only [List.getElem?_map, Option.map_map]
  rfl

/-- Along any sequence of poll cycles, each search's watermark never
decreases (source contract assumed). -/
theorem watermark_monotone_run (getL : SearchSpec → Nat → List Listing)
    (dist : Int × Int → Int) (sink : Nat → Nat → NotifyOutcome)
    (filters : List (String × Filter))
    (Hgt : ∀ s w, ∀ l ∈ getL s w, w < l.created_at) :
    ∀ (n i : Nat) (searches : List ActiveSearch) (p : Nat) (s t : ActiveSearch),
      searches[p]? = some s →
      ((runCycles getL dist sink filters i searches n).1)[p]? = some t →
      s.last_notified ≤ t.last_notified := by
  intro n
  induction n with
  | zero =>
    intro i searches p s t hs ht
    simp only [runCycles] at ht
    rw [hs] at ht
    cases ht
    exact Nat.le.refl
  | succ n ih =>
    intro i searches p s t hs ht
    have hstep : (runCycles getL dist sink filters i searches (n + 1)).1 =
        (runCycles getL dist sink filters (i + 1)
          (notify_new_listings getL dist (sink i) filters searches).searches n).1 := rfl
    rw [hstep] at ht
    have hmid : (notify_new_listings getL dist (sink i) filters searches).searches[p]? =
        some (get_new_listings_for_search getL dist s).1 := by
      rw [searches_notify_new_listings, getElem?_fst_get_new_listings, hs]
      rfl
    exact Nat.le_trans (watermark_le_get_for_search getL dist Hgt s)
      (ih (i + 1) _ p _ t hmid ht)

/-- Every listing the cycle delivers is the enrichment of a listing some
active search's fetch returned. -/
theorem mem_delivered (getL : SearchSpec → Nat → List Listing)
    (dist : Int × Int → Int) (sink : Nat → NotifyOutcome)
    (filters : List (String × Filter)) (searches : List ActiveSearch) (l : Listing)
    (hl : l ∈ (notify_new_listings getL dist sink filters searches).delivered) :
    ∃ s ∈ searches, ∃ l0 ∈ getL s.spec s.last_notified,
      l = add_calculated_fields_to_listing dist l0 := by
  have h1 : l ∈ (get_new_listings getL dist searches).2.1 :=
    (delivered_sublist getL dist sink filters searches).subset hl
  simp only [get_new_listings] at h1
  rw [List.mem_insertionSort, List.mem_flatten] at h1
  obtain ⟨batch, hbatch, hlb⟩ := h1
  rw [List.mem_map] at hbatch
  obtain ⟨pair, hpair, rfl⟩ := hbatch
  rw [List.mem_map] at hpair
  obtain ⟨s, hs, rfl⟩ := hpair
  rw [snd_get_new_listings_for_search, List.mem_map] at hlb
  obtain ⟨l0, hl0, rfl⟩ := hlb
  exact ⟨s, hs, l0, hl0, rfl⟩

/-- Under the source contract, every delivered listing is strictly newer
(in both timestamps) than the watermark of the search that fetched it. -/
theorem delivered_after_watermark (getL : SearchSpec → Nat → List Listing)
    (dist : Int × Int → Int) (sink : Nat → NotifyOutcome)
    (filters : List (String × Filter)) (searches : List ActiveSearch)
    (Hgt : ∀ s w, ∀ l ∈ getL s w, w < l.created_at ∧ w < l.updated_at) :
    ∀ l ∈ (notify_new_listings getL dist sink filters searches).delivered,
      ∃ s ∈ searches, s.last_notified < l.created_at ∧ s.last_notified < l.updated_at := by
  intro l hl
  obtain ⟨s, hs, l0, hl0, rfl⟩ := mem_delivered getL dist sink filters searches l hl
  refine ⟨s, hs, ?_, ?_⟩
  · rw [created_at_add_calculated]
    exact (Hgt s.spec s.last_notified l0 hl0).1
  · rw [updated_at_add_calculated]
    exact (Hgt s.spec s.last_notified l0 hl0).2

/-- The fetch phase keeps a search's spec and only rewrites its
watermark. -/
theorem fst_get_for_search_eta (getL : SearchSpec → Nat → List Listing)
    (dist : Int × Int → Int) (search : ActiveSearch) :
    (get_new_listings_for_search getL dist search).1 =
      ⟨search.spec, (get_new_listings_for_search getL dist search).1.last_notified⟩ := by
  have hspec := spec_get_new_listings_for_search getL dist search
  cases h : (get_new_listings_for_search getL dist search).1 with
  | mk a b =>
    rw [h] at hspec
    dsimp at hspec ⊢
    rw [hspec]

/-- After one cycle over a single active search, the state is that search
with the watermark produced by the fetch phase. -/
theorem searches_notify_single (getL : SearchSpec → Nat → List Listing)
    (dist : Int × Int → Int) (sink : Nat → NotifyOutcome)
    (filters : List (String × Filter)) (sp : SearchSpec) (w : Nat) :
    (notify_new_listings getL dist sink filters [⟨sp, w⟩]).searches =
      [⟨sp, (get_new_listings_for_search getL dist ⟨sp, w⟩).1.last_notified⟩] := by
  rw [searches_notify_new_listings]
  simp only [get_new_listings, List.map_cons, List.map_nil]
  rw [fst_get_for_search_eta]

/-- With newest-first batches, no listing delivered from a single search's
cycle is newer than the watermark the fetch phase just installed. -/
theorem delivered_le_new_watermark_single (getL : SearchSpec → Nat → List Listing)
    (dist : Int × Int → Int) (sink : Nat → NotifyOutcome)
    (filters : List (String × Filter)) (sp : SearchSpec) (w : Nat)
    (Hnf : ∀ s u, ∀ l rest, getL s u = l :: rest → ∀ x ∈ rest, x.created_at ≤ l.created_at) :
    ∀ l ∈ (notify_new_listings getL dist sink filters [⟨sp, w⟩]).delivered,
      l.created_at ≤ (get_new_listings_for_search getL dist ⟨sp, w⟩).1.last_notified := by
  intro l hl
  obtain ⟨s, hs, l0, hl0, rfl⟩ := mem_delivered getL dist sink filters [⟨sp, w⟩] l hl
  obtain rfl := List.mem_singleton.mp hs
  cases hbatch : getL sp w with
  | nil =>
    have : l0 ∈ ([] : List Listing) := hbatch ▸ hl0
    cases this
  | cons b rest =>
    rw [get_new_listings_for_search_of_eq_cons getL dist _ b rest hbatch,
      created_at_add_calculated]
    have hl0' : l0 ∈ b :: rest := hbatch ▸ hl0
    rcases List.mem_cons.mp hl0' with rfl | hmem
    · exact Nat.le.refl
    · exact Hnf sp w b rest hbatch l0 hmem

/-- Facts about a run over one active search: the state stays a single
search with a non-decreasing watermark; every delivery of the run beats the
initial watermark; and deliveries of later cycles are strictly newer (in
`created_at`) than deliveries of earlier cycles. -/
theorem run_single_facts (getL : SearchSpec → Nat → List Listing)
    (dist : Int × Int → Int) (sink : Nat → Nat → NotifyOutcome)
    (filters : List (String × Filter)) (sp : SearchSpec)
    (Hgt : ∀ s w, ∀ l ∈ getL s w, w < l.created_at ∧ w < l.updated_at)
    (Hnf : ∀ s u, ∀ l rest, getL s u = l :: rest → ∀ x ∈ rest, x.created_at ≤ l.created_at) :
    ∀ (n i w : Nat),
      (∃ wf, (runCycles getL dist sink filters i [⟨sp, w⟩] n).1 = [⟨sp, wf⟩] ∧ w ≤ wf) ∧
      (∀ (idx : Nat) (r : CycleResult),
        ((runCycles getL dist sink filters i [⟨sp, w⟩] n).2)[idx]? = some r →
        ∀ l ∈ r.delivered, w < l.created_at ∧ w < l.updated_at) ∧
      (∀ (idx jdx : Nat) (r r' : CycleResult), idx < jdx →
        ((runCycles getL dist sink filters i [⟨sp, w⟩] n).2)[idx]? = some r →
        ((runCycles getL dist sink filters i [⟨sp, w⟩] n).2)[jdx]? = some r' →
        ∀ l ∈ r.delivered, ∀ l' ∈ r'.delivered, l.created_at < l'.created_at) := by
  intro n
  induction n with
  | zero =>
    intro i w
    refine ⟨⟨w, rfl, Nat.le.refl⟩, ?_, ?_⟩
    · intro idx r hr
      simp [runCycles] at hr
    · intro idx jdx r r' hij hr hr'
      simp [runCycles] at hr
  | succ n ih =>
    intro i w
    have hsea : (notify_new_listings getL dist (sink i) filters [⟨sp, w⟩]).searches =
        [⟨sp, (get_new_listings_for_search getL dist ⟨sp, w⟩).1.last_notified⟩] :=
      searches_notify_single getL dist (sink i) filters sp w
    set w1 := (get_new_listings_for_search getL dist ⟨sp, w⟩).1.last_notified with hw1def
    have hww1 : w ≤ w1 := watermark_le_get_for_search getL dist
      (fun s u l hl => (Hgt s u l hl).1) ⟨sp, w⟩
    have hrun1 : (runCycles getL dist sink filters i [⟨sp, w⟩] (n + 1)).1 =
        (runCycles getL dist sink filters (i + 1) [⟨sp, w1⟩] n).1 := by
      show (runCycles getL dist sink filters (i + 1)
        (notify_new_listings getL dist (sink i) filters [⟨sp, w⟩]).searches n).1 = _
      rw [hsea]
    have hrun2 : (runCycles getL dist sink filters i [⟨sp, w⟩] (n + 1)).2 =
        notify_new_listings getL dist (sink i) filters [⟨sp, w⟩] ::
          (runCycles getL dist sink filters (i + 1) [⟨sp, w1⟩] n).2 := by
      show notify_new_listings getL dist (sink i) filters [⟨sp, w⟩] ::
          (runCycles getL dist sink filters (i + 1)
            (notify_new_listings getL dist (sink i) filters [⟨sp, w⟩]).searches n).2 = _
      rw [hsea]
    obtain ⟨⟨wf, hfin, hple⟩, hlow, hpair⟩ := ih (i + 1) w1
    refine ⟨⟨wf, ?_, Nat.le_trans hww1 hple⟩, ?_, ?_⟩
    · rw [hrun1]
      exact hfin
    · intro idx r hr
      rw [hrun2] at hr
      cases idx with
      | zero =>
        rw [List.getElem?_cons_zero] at hr
        obtain rfl := Option.some.inj hr
        intro l hl
        obtain ⟨s, hs, h1, h2⟩ :=
          delivered_after_watermark getL dist (sink i) filters [⟨sp, w⟩] Hgt l hl
        obtain rfl := List.mem_singleton.mp hs
        exact ⟨h1, h2⟩
      | succ idx =>
        rw [List.getElem?_cons_succ] at hr
        intro l hl
        have hlt := hlow idx r hr l hl
        exact ⟨Nat.lt_of_le_of_lt hww1 hlt.1, Nat.lt_of_le_of_lt hww1 hlt.2⟩
    · intro idx jdx r r' hij hr hr'
      rw [hrun2] at hr hr'
      cases idx with
      | zero =>
        rw [List.getElem?_cons_zero] at hr
        obtain rfl := Option.some.inj hr
        cases jdx with
        | zero => exact absurd hij (Nat.lt_irrefl 0)
        | succ jdx =>
          rw [List.getElem?_cons_succ] at hr'
          intro l hl l' hl'
          have hub : l.created_at ≤ w1 :=
            delivered_le_new_watermark_single getL dist (sink i) filters sp w Hnf l hl
          have hlb := (hlow jdx r' hr' l' hl').1
          exact Nat.lt_of_le_of_lt hub hlb
      | succ idx =>
        cases jdx with
        | zero => exact absurd hij (Nat.not_lt_zero _)
        | succ jdx =>
          rw [List.getElem?_cons_succ] at hr hr'
          exact hpair idx jdx r r' (Nat.lt_of_succ_lt_succ hij) hr hr'

/-- The concrete newest-first source honours the strict-watermark
contract. -/
theorem newestFirstSource_gt :
    ∀ s w, ∀ l ∈ newestFirstSource s w, w < l.created_at ∧ w < l.updated_at := by
  intro s w l hl
  obtain ⟨hmem, hdec⟩ := List.mem_filter.mp hl
  have hlt : w < l.created_at := by simpa using hdec
  refine ⟨hlt, ?_⟩
  rcases List.mem_cons.mp hmem with rfl | hmem2
  · exact hlt
  · obtain rfl := List.mem_singleton.mp hmem2
    exact hlt

/-- The concrete newest-first source returns its batches newest-first. -/
theorem newestFirstSource_nf :
    ∀ s w, ∀ l rest, newestFirstSource s w = l :: rest →
      ∀ x ∈ rest, x.created_at ≤ l.created_at := by
  intro s w l rest h x hx
  by_cases h20 : w < 20
  · have hfe : newestFirstSource s w =
        lB :: [lA].filter (fun u => decide (w < u.created_at)) := by
      simp [newestFirstSource, List.filter_cons, lB, h20]
    rw [hfe] at h
    injection h with h1 h2
    subst h1
    subst h2
    obtain ⟨hx1, _⟩ := List.mem_filter.mp hx
    obtain rfl := List.mem_singleton.mp hx1
    decide
  · have h5 : ¬ w < 5 := by omega
    have hfe : newestFirstSource s w = [] := by
      simp [newestFirstSource, List.filter_cons, lA, lB, h20, h5]
    rw [hfe] at h
    cases h

/-! ## Claim theorems -/

/-- C4: within one poll cycle, the listings delivered to the sink appear in
non-decreasing `updated_at` order — the order of the globally sorted
concatenation of all active searches' results, whatever the sink and the
filters do. -/
theorem delivered_in_nondecreasing_updated_at_order
    (getL : SearchSpec → Nat → List Listing) (dist : Int × Int → Int)
    (sink : Nat → NotifyOutcome) (filters : List (String × Filter))
    (searches : List ActiveSearch) :
    List.Pairwise listingLE (notify_new_listings getL dist sink filters searches).delivered :=
  List.Pairwise.sublist (delivered_sublist getL dist sink filters searches)
    (sorted_get_new_listings getL dist searches)

/-- C6: during a poll cycle, `save_notifier` is called if and only if the
combined fetch across all active searches returned at least one listing. -/
theorem save_called_iff_new_listings (getL : SearchSpec → Nat → List Listing)
    (dist : Int × Int → Int) (sink : Nat → NotifyOutcome)
    (filters : List (String × Filter)) (searches : List ActiveSearch) :
    (notify_new_listings getL dist sink filters searches).saved = true ↔
      (searches.map fun s => getL s.spec s.last_notified).flatten ≠ [] := by
  rw [saved_notify_new_listings]
  simp only [get_new_listings]
  simp [List.map_map, Function.comp, snd_get_new_listings_for_search,
    List.isEmpty_iff, List.flatten_eq_nil_iff, List.mem_map]

/-- C5: with no filters registered every listing passes; when no consulted
predicate raises, `should_notify_listing` answers `false` exactly when some
registered filter whose field is present on the listing rejects that
field's value; filters keyed by fields absent from the listing's variant
never cause rejection. -/
theorem should_notify_filter_semantics (filters : List (String × Filter)) (l : Listing)
    (h : ∀ p ∈ filters, ∀ v, l.fields.lookup p.1 = some v → ∃ b, p.2.test v = .ok b) :
    should_notify_listing [] l = .ok true ∧
    (should_notify_listing filters l = .ok false ↔
      ∃ p ∈ filters, ∃ v, l.fields.lookup p.1 = some v ∧ p.2.test v = .ok false) ∧
    ((∀ p ∈ filters, l.fields.lookup p.1 = none) → should_notify_listing filters l = .ok true) :=
  ⟨rfl, should_notify_listing_false_iff filters l h, should_notify_listing_absent filters l⟩

/-- Witness for C5 at a concrete input: a 300-priced listing against a
`price ≤ 500` filter. -/
theorem should_notify_filter_semantics_witness :
    should_notify_listing [] lP = .ok true ∧
    should_notify_listing [("price", priceFilter)] lP ≠ .ok false := by
  have h := should_notify_filter_semantics [("price", priceFilter)] lP
    (by
      intro p hp v _
      rcases List.mem_singleton.mp hp with rfl
      exact ⟨decide (v ≤ 500), rfl⟩)
  refine ⟨h.1, fun hfalse => ?_⟩
  obtain ⟨p, hp, v, hv, ht⟩ := h.2.1.mp hfalse
  rcases List.mem_singleton.mp hp with rfl
  have hv' : (300 : Int) = v := by
    simpa [lP] using hv
  subst hv'
  simp [priceFilter] at ht

/-- C1: if the delivery loop's `k`-th sink call observes `CancelledError`
(after `k` of the `n` filtered listings were delivered) and the flush's
sink calls succeed, the cycle delivers all `n` filtered listings in order
(the remaining `n - k` via the flush) and then re-raises the cancellation
to the caller. -/
theorem cancellation_flushes_remaining (getL : SearchSpec → Nat → List Listing)
    (dist : Int × Int → Int) (sink : Nat → NotifyOutcome)
    (filters : List (String × Filter)) (searches : List ActiveSearch)
    (L : List Listing) (k : Nat)
    (hne : (get_new_listings getL dist searches).2.1.isEmpty = false)
    (hF : filterListings filters (get_new_listings getL dist searches).2.1 = .ok L)
    (hk : k < L.length)
    (hok : ∀ j, j ≠ k → sink j = .ok)
    (hcan : sink k = .cancelled) :
    (notify_new_listings getL dist sink filters searches).delivered = L ∧
    (notify_new_listings getL dist sink filters searches).outcome = .cancelled := by
  have hloop := notifyLoop_cancel_at sink k L 0 hk
    (fun j hj => by simpa using hok j (Nat.ne_of_lt hj)) (by simpa using hcan)
  have hflush := flushLoop_all_ok sink (L.drop k) (k + 1)
    (fun j _ => hok (k + 1 + j) (by omega))
  have hres : notify_new_listings getL dist sink filters searches =
      ⟨L.take k ++ L.drop k, .cancelled, (get_new_listings getL dist searches).1,
        (get_new_listings getL dist searches).2.2⟩ := by
    simp only [notify_new_listings, hne, Bool.false_eq_true, if_false, hF, hloop, hflush,
      Nat.zero_add]
  rw [hres]
  exact ⟨List.take_append_drop k L, rfl⟩

/-- Witness for C1: two listings, cancellation on the second sink call. -/
theorem cancellation_flushes_remaining_witness :
    (notify_new_listings oldestFirstSource d0 cancelSink [] [⟨spec0, 0⟩]).delivered = [lA, lB] ∧
    (notify_new_listings oldestFirstSource d0 cancelSink [] [⟨spec0, 0⟩]).outcome = .cancelled :=
  cancellation_flushes_remaining oldestFirstSource d0 cancelSink [] [⟨spec0, 0⟩] [lA, lB] 1
    (by decide) rfl (by decide)
    (fun j hj => by simp [cancelSink, hj]) rfl

/-- C10: `create_search` only appends one new `ActiveSearch` (whose
watermark defaults to `now - backdate` when none is given) and registers
the spec with the monitor; the paused flag, the filters, the scheduler's
job store, the job handle and the persistence counter are untouched, and
existing searches (including their watermarks) are unchanged because the
new search is appended at the end. -/
theorem create_search_frame (st : EngineState) (sp : SearchSpec)
    (t : Option Nat) (now backdate : Nat) :
    (create_search st sp t now backdate).paused = st.paused ∧
    (create_search st sp t now backdate).filters = st.filters ∧
    (create_search st sp t now backdate).jobs = st.jobs ∧
    (create_search st sp t now backdate).notify_job_id = st.notify_job_id ∧
    (create_search st sp t now backdate).save_count = st.save_count ∧
    (create_search st sp t now backdate).active_searches =
      st.active_searches ++ [⟨sp, match t with | none => now - backdate | some u => u⟩] ∧
    (create_search st sp none now backdate).active_searches =
      st.active_searches ++ [⟨sp, now - backdate⟩] ∧
    (create_search st sp t now backdate).registered = register_search st.registered sp :=
  ⟨rfl, rfl, rfl, rfl, rfl, rfl, rfl, rfl⟩

/-- Counterexample for C9: on the concrete engine state `engine0`, the
first `cleanup` succeeds but a second `cleanup` raises `JobLookupError`
from the scheduler's `remove_job`, so `cleanup` is not idempotent. -/
theorem cleanup_second_call_raises_cex :
    (cleanup engine0).bind cleanup = .error "JobLookupError" := rfl

/-- C9 (amended): `cleanup` removes the scheduled job and deregisters every
active search's spec from the monitor, but calling it a second time on the
resulting state raises `JobLookupError` (APScheduler's `remove_job` on an
unknown job id), so it is not idempotent. -/
theorem cleanup_removes_but_not_idempotent (st : EngineState)
    (hjob : st.notify_job_id ∈ st.jobs) :
    ∃ st', cleanup st = .ok st' ∧
      st'.jobs = st.jobs.filter (· ≠ st.notify_job_id) ∧
      (∀ s ∈ st.active_searches, s.spec ∉ st'.registered) ∧
      cleanup st' = .error "JobLookupError" := by
  have hrem : remove_job st.jobs st.notify_job_id =
      .ok (st.jobs.filter (· ≠ st.notify_job_id)) := by
    unfold remove_job
    rw [if_pos hjob]
  refine ⟨{ st with
      jobs := st.jobs.filter (· ≠ st.notify_job_id),
      registered := st.active_searches.foldl (fun r s => remove_search r s.spec) st.registered },
    ?_, rfl, ?_, ?_⟩
  · unfold cleanup
    rw [hrem]
    rfl
  · intro s hs
    exact not_mem_foldl_remove st.active_searches st.registered s hs
  · unfold cleanup remove_job
    rw [if_neg ?_]
    · rfl
    · intro hmem
      have := (List.mem_filter.mp hmem).2
      simp at this

/-- Witness for the amended C9 on the concrete state `engine0`. -/
theorem cleanup_removes_but_not_idempotent_witness :
    ∃ st', cleanup engine0 = .ok st' ∧
      st'.jobs = engine0.jobs.filter (· ≠ engine0.notify_job_id) ∧
      (∀ s ∈ engine0.active_searches, s.spec ∉ st'.registered) ∧
      cleanup st' = .error "JobLookupError" :=
  cleanup_removes_but_not_idempotent engine0 (by decide)

/-- Counterexample for C7: with a price filter whose predicate raises and a
priced listing fetched, the poll cycle does not complete with the listing
filtered out — it crashes with the predicate's error (only
`asyncio.CancelledError` is caught by `_notify_new_listings`). -/
theorem filter_error_crashes_cycle_cex :
    (notify_new_listings priceSource d0 okSink [("price", failFilter)] [⟨spec0, 0⟩]).outcome =
      .failed "boom" ∧
    (notify_new_listings priceSource d0 okSink [("price", failFilter)] [⟨spec0, 0⟩]).delivered =
      [] :=
  ⟨rfl, rfl⟩

/-- C7 (amended): if evaluating the registered filters over the fetched
listings raises, the error propagates (it is not `CancelledError`, the only
exception the cycle handles): the poll cycle aborts with that error and
delivers nothing; the listing is undelivered because the whole tick fails,
not because the filter was treated as rejecting. -/
theorem filter_error_aborts_cycle (getL : SearchSpec → Nat → List Listing)
    (dist : Int × Int → Int) (sink : Nat → NotifyOutcome)
    (filters : List (String × Filter)) (searches : List ActiveSearch) (e : String)
    (hne : (get_new_listings getL dist searches).2.1.isEmpty = false)
    (hErr : filterListings filters (get_new_listings getL dist searches).2.1 = .error e) :
    notify_new_listings getL dist sink filters searches =
      ⟨[], .failed e, (get_new_listings getL dist searches).1,
        (get_new_listings getL dist searches).2.2⟩ := by
  simp only [notify_new_listings, hne, Bool.false_eq_true, if_false, hErr]

/-- Witness for the amended C7 on the concrete raising filter. -/
theorem filter_error_aborts_cycle_witness :
    notify_new_listings priceSource d0 okSink [("price", failFilter)] [⟨spec0, 0⟩] =
      ⟨[], .failed "boom", [⟨spec0, 5⟩], true⟩ :=
  (filter_error_aborts_cycle priceSource d0 okSink [("price", failFilter)] [⟨spec0, 0⟩]
    "boom" rfl rfl).trans rfl

/-- Counterexample for C8: with a newest-first source holding `lA`, `lB`
and a sink that fails on every call of cycle 0, the tick's filtered list
was `[lA, lB]` and its watermark advanced to 20, yet nothing is delivered
in that cycle or in any later cycle — the pending listings are silently
lost, not retained for a flush or a later delivery attempt. -/
theorem sink_failure_loses_pending_cex :
    ((runCycles newestFirstSource d0 failFirstCycleSink [] 0 [⟨spec0, 0⟩] 2).2.map
      CycleResult.delivered) = [[], []] ∧
    filterListings [] (get_new_listings newestFirstSource d0 [⟨spec0, 0⟩]).2.1 =
      .ok [lA, lB] ∧
    ((runCycles newestFirstSource d0 failFirstCycleSink [] 0 [⟨spec0, 0⟩] 2).2.map
      CycleResult.outcome) = [.failed "sinkfail", .ok] ∧
    (runCycles newestFirstSource d0 failFirstCycleSink [] 0 [⟨spec0, 0⟩] 2).1 =
      [⟨spec0, 20⟩] :=
  ⟨rfl, rfl, rfl, rfl⟩

/-- C8 (amended): a non-cancellation sink error on the `m`-th delivery of
the tick aborts the remaining deliveries (exactly the first `m` filtered
listings were handed to the sink) and propagates the error; the watermarks
are those produced by the fetch phase, unaffected by the delivery failure.
The not-yet-delivered listings are dropped: no flush runs for ordinary
errors and the advanced watermarks exclude them from later fetches. -/
theorem sink_failure_aborts_delivery (getL : SearchSpec → Nat → List Listing)
    (dist : Int × Int → Int) (sink : Nat → NotifyOutcome)
    (filters : List (String × Filter)) (searches : List ActiveSearch)
    (L : List Listing) (m : Nat) (e : String)
    (hne : (get_new_listings getL dist searches).2.1.isEmpty = false)
    (hF : filterListings filters (get_new_listings getL dist searches).2.1 = .ok L)
    (hm : m < L.length)
    (hok : ∀ j, j < m → sink j = .ok)
    (hfail : sink m = .failed e) :
    (notify_new_listings getL dist sink filters searches).delivered = L.take m ∧
    (notify_new_listings getL dist sink filters searches).outcome = .failed e ∧
    (notify_new_listings getL dist sink filters searches).searches =
      (get_new_listings getL dist searches).1 := by
  have hloop := notifyLoop_fail_at sink e m L 0 hm
    (fun j hj => by simpa using hok j hj) (by simpa using hfail)
  have hres : notify_new_listings getL dist sink filters searches =
      ⟨L.take m, .failed e, (get_new_listings getL dist searches).1,
        (get_new_listings getL dist searches).2.2⟩ := by
    simp only [notify_new_listings, hne, Bool.false_eq_true, if_false, hF, hloop]
  rw [hres]
  exact ⟨rfl, rfl, rfl⟩

/-- Witness for the amended C8: the sink fails on its first call. -/
theorem sink_failure_aborts_delivery_witness :
    (notify_new_listings oldestFirstSource d0 failSink [] [⟨spec0, 0⟩]).delivered =
      List.take 0 [lA, lB] ∧
    (notify_new_listings oldestFirstSource d0 failSink [] [⟨spec0, 0⟩]).outcome =
      .failed "sinkfail" ∧
    (notify_new_listings oldestFirstSource d0 failSink [] [⟨spec0, 0⟩]).searches =
      (get_new_listings oldestFirstSource d0 [⟨spec0, 0⟩]).1 :=
  sink_failure_aborts_delivery oldestFirstSource d0 failSink [] [⟨spec0, 0⟩] [lA, lB] 0
    "sinkfail" (by decide) rfl (by decide) (fun j hj => absurd hj (Nat.not_lt_zero j)) rfl

/-- C3: under the source contract (returned listings are strictly newer
than the given watermark), a search's watermark is monotonically
non-decreasing along every sequence of poll cycles; an empty fetch leaves
the search unchanged, and a nonempty fetch sets the watermark to the
`created_at` of the first element of the returned batch. -/
theorem watermark_monotonic (getL : SearchSpec → Nat → List Listing)
    (dist : Int × Int → Int) (sink : Nat → Nat → NotifyOutcome)
    (filters : List (String × Filter))
    (Hgt : ∀ s w, ∀ l ∈ getL s w, w < l.created_at) :
    (∀ search, getL search.spec search.last_notified = [] →
      get_new_listings_for_search getL dist search = (search, [])) ∧
    (∀ search l rest, getL search.spec search.last_notified = l :: rest →
      (get_new_listings_for_search getL dist search).1 = ⟨search.spec, l.created_at⟩) ∧
    (∀ (n i : Nat) (searches : List ActiveSearch) (p : Nat) (s t : ActiveSearch),
      searches[p]? = some s →
      ((runCycles getL dist sink filters i searches n).1)[p]? = some t →
      s.last_notified ≤ t.last_notified) :=
  ⟨fun search h => get_new_listings_for_search_of_eq_nil getL dist search h,
   fun search l rest h => get_new_listings_for_search_of_eq_cons getL dist search l rest h,
   fun n i searches p s t hs ht =>
     watermark_monotone_run getL dist sink filters Hgt n i searches p s t hs ht⟩

/-- Witness for C3: one cycle over `oldestFirstSource` raises the
watermark of the single active search from 0 to 5. -/
theorem watermark_monotonic_witness :
    (⟨spec0, 0⟩ : ActiveSearch).last_notified ≤ (⟨spec0, 5⟩ : ActiveSearch).last_notified :=
  (watermark_monotonic oldestFirstSource d0 okRunSink []
    (by
      intro s w l hl
      obtain ⟨hmem, hdec⟩ := List.mem_filter.mp hl
      simpa using hdec)).2.2
    1 0 [⟨spec0, 0⟩] 0 ⟨spec0, 0⟩ ⟨spec0, 5⟩ rfl rfl

/-- Counterexample for C2: `oldestFirstSource` honours the claim's
hypothesis (every returned listing is strictly newer than the given
watermark in both timestamps), yet over two successfully-completed poll
cycles the listing `lB` is delivered twice — the watermark is set from the
batch's first (here oldest) element, so the second fetch returns `lB`
again. -/
theorem renotification_cex :
    (∀ s w, ∀ l ∈ oldestFirstSource s w, w < l.created_at ∧ w < l.updated_at) ∧
    ((runCycles oldestFirstSource d0 okRunSink [] 0 [⟨spec0, 0⟩] 2).2.map
      CycleResult.delivered) = [[lA, lB], [lB]] ∧
    ((runCycles oldestFirstSource d0 okRunSink [] 0 [⟨spec0, 0⟩] 2).2.map
      CycleResult.outcome) = [.ok, .ok] := by
  refine ⟨?_, rfl, rfl⟩
  intro s w l hl
  obtain ⟨hmem, hdec⟩ := List.mem_filter.mp hl
  have hlt : w < l.created_at := by simpa using hdec
  refine ⟨hlt, ?_⟩
  rcases List.mem_cons.mp hmem with rfl | hmem2
  · exact hlt
  · obtain rfl := List.mem_singleton.mp hmem2
    exact hlt

/-- C2 (amended): under the claim's source hypothesis strengthened with
newest-first batches (the first element of a returned batch has the
greatest `created_at`), (1) a delivered listing is always strictly newer —
in both `created_at` and `updated_at` — than the watermark of the search
that fetched it at poll time, and (2) for an engine with a single active
search, listings delivered in distinct cycles of one process lifetime have
strictly increasing `created_at`, so no listing is ever delivered twice
(overlapping searches can still duplicate deliveries, hence the
single-search scope). -/
theorem no_renotification_single_search (getL : SearchSpec → Nat → List Listing)
    (dist : Int × Int → Int)
    (Hgt : ∀ s w, ∀ l ∈ getL s w, w < l.created_at ∧ w < l.updated_at)
    (Hnf : ∀ s u, ∀ l rest, getL s u = l :: rest → ∀ x ∈ rest, x.created_at ≤ l.created_at) :
    (∀ (sink : Nat → NotifyOutcome) (filters : List (String × Filter))
        (searches : List ActiveSearch),
      ∀ l ∈ (notify_new_listings getL dist sink filters searches).delivered,
        ∃ s ∈ searches, s.last_notified < l.created_at ∧ s.last_notified < l.updated_at) ∧
    (∀ (sink : Nat → Nat → NotifyOutcome) (filters : List (String × Filter))
        (sp : SearchSpec) (w n idx jdx : Nat) (r r' : CycleResult), idx < jdx →
      ((runCycles getL dist sink filters 0 [⟨sp, w⟩] n).2)[idx]? = some r →
      ((runCycles getL dist sink filters 0 [⟨sp, w⟩] n).2)[jdx]? = some r' →
      ∀ l ∈ r.delivered, ∀ l' ∈ r'.delivered,
        l.created_at < l'.created_at ∧ l ≠ l') := by
  constructor
  · intro sink filters searches l hl
    exact delivered_after_watermark getL dist sink filters searches Hgt l hl
  · intro sink filters sp w n idx jdx r r' hij hr hr' l hl l' hl'
    have hlt := (run_single_facts getL dist sink filters sp Hgt Hnf n 0 w).2.2
      idx jdx r r' hij hr hr' l hl l' hl'
    exact ⟨hlt, fun he => absurd (he ▸ hlt) (Nat.lt_irrefl _)⟩

/-- Witness for the amended C2: with the newest-first source, `lA` is
delivered and is indeed strictly newer than the initial watermark 0. -/
theorem no_renotification_single_search_witness :
    (0 : Nat) < lA.created_at ∧ (0 : Nat) < lA.updated_at := by
  have h := (no_renotification_single_search newestFirstSource d0
    newestFirstSource_gt newestFirstSource_nf).1 okSink [] [⟨spec0, 0⟩] lA
    (by decide)
  obtain ⟨s, hs, h1, h2⟩ := h
  obtain rfl := List.mem_singleton.mp hs
  exact ⟨h1, h2⟩

end Hyacinth
